import Mathlib

/-!
Verification of the werewolf game backend (src/backend/main.py).

The data model (Player, Action, Room) and every operation the claims touch
are embedded as executable Lean definitions, transcribed from the Python
source: dictionaries become insertion-ordered lists, in-place mutation of a
player found by name/id becomes an update of the first matching list entry,
HTTP errors become `Except.error`.
-/

namespace Werewolf

/-- Player record (main.py `class Player`).  The `id` is the dictionary key
in `Room.players`; `role` is `none` until roles are assigned. -/
structure Player where
  id : String
  name : String
  role : Option String := none
  alive : Bool := true
  muted_today : Bool := false
  prince_revealed : Bool := false
  deriving DecidableEq

/-- Action record (main.py `class Action`): phase and cycle counters are
stamped at submission time. -/
structure Action where
  player_id : String
  action_type : String
  target_name : Option String := none
  phase : Option String := none
  night_number : Option Nat := none
  day_number : Option Nat := none
  deriving DecidableEq

/-- Room record (main.py `class Room`), restricted to the fields the core
logic reads or writes.  `players` keeps the Python dict's insertion order. -/
structure Room where
  code : String := ""
  players : List Player := []
  phase : String := "lobby"
  night_number : Nat := 0
  day_number : Nat := 0
  started : Bool := false
  actions : List Action := []
  witch_has_heal : Bool := true
  witch_has_poison : Bool := true
  last_guard_target_name : Option String := none
  deaths_last_night : List String := []
  muted_for_today : List String := []
  active_call : Option String := none
  voting_status : String := "idle"
  vote_duration_sec : Option Nat := none
  winner : Option String := none
  deriving DecidableEq

/-- Python truthiness of an `Optional[str]`: `None` and `""` are falsy. -/
def truthy : Option String → Bool
  | none => false
  | some s => !(s == "")

/-- Truthy option to singleton list (`if x: deaths.append(x)`). -/
def otl : Option String → List String
  | none => []
  | some s => if s == "" then [] else [s]

/-- First-occurrence de-duplication (main.py lines building `deaths_unique`,
and the insertion order of Python dict keys). -/
def dedupFirst (l : List String) : List String :=
  l.foldl (fun acc x => if x ∈ acc then acc else acc ++ [x]) []

/-- One Python-dict insert `m[k] = v`: update the first entry with key `k`,
or append `(k, v)` at the end. -/
def upsert : List (String × String) → String → String → List (String × String)
  | [], k, v => [(k, v)]
  | (k0, v0) :: rest, k, v =>
    if k0 == k then (k0, v) :: rest else (k0, v0) :: upsert rest k v

/-- One Python counter step `counter[t] = counter.get(t, 0) + 1`. -/
def tallyInsert : List (String × Nat) → String → List (String × Nat)
  | [], t => [(t, 1)]
  | (k, c) :: rest, t =>
    if k == t then (k, c + 1) :: rest else (k, c) :: tallyInsert rest t

/-- Insertion-ordered tally of a list of names, mirroring a Python `dict`
counter. -/
def tally (targets : List String) : List (String × Nat) :=
  targets.foldl tallyInsert []

/-- Python `max(counter.items(), key=lambda x: x[1])[0]`: the built-in `max`
keeps the earlier item unless a strictly larger one appears, so the first
entry attaining the maximum wins. -/
def firstMax : List (String × Nat) → Option String
  | [] => none
  | x :: rest =>
    some ((rest.foldl (fun best kv => if best.2 < kv.2 then kv else best) x).1)

/-- Maximum count appearing in a tally. -/
def maxCount (l : List (String × Nat)) : Nat :=
  l.foldr (fun kv m => max kv.2 m) 0

/-- Specification-level tie-break, following the spec text: the first entry
of the tally (encounter order) whose count reaches the maximum. -/
def specFirstMax (l : List (String × Nat)) : Option String :=
  (l.find? (fun kv => maxCount l ≤ kv.2)).map Prod.fst

/-- Kill a player as the resolvers do: `if p and p.alive: p.alive = False`
(a dead player is left untouched). -/
def kill_update (p : Player) : Player :=
  if p.alive then { p with alive := false } else p

/-- Reveal the prince: `target.prince_revealed = True`. -/
def reveal_update (p : Player) : Player := { p with prince_revealed := true }

/-- Update the first player whose `name` matches (Python mutates the object
returned by `find_player_by_name`); no-op when the name resolves to nobody. -/
def update_first_by_name (ps : List Player) (n : String) (f : Player → Player) :
    List Player :=
  match ps with
  | [] => []
  | p :: rest =>
    if p.name == n then f p :: rest else p :: update_first_by_name rest n f

/-- Update the first player whose `id` matches (Python `room.players[pid]`). -/
def update_first_by_id (ps : List Player) (i : String) (f : Player → Player) :
    List Player :=
  match ps with
  | [] => []
  | p :: rest =>
    if p.id == i then f p :: rest else p :: update_first_by_id rest i f

-- ================== source transcriptions ==================

/-- main.py `find_player_by_name`: first roster entry with the given name. -/
def find_player_by_name (room : Room) (n : String) : Option Player :=
  room.players.find? (fun p => p.name == n)

/-- main.py `compute_winner`: village wins when no living wolves remain and
someone else lives; wolves win when they live and reach parity. -/
def compute_winner (room : Room) : Option String :=
  let alive_wolves :=
    (room.players.filter (fun p => p.alive && p.role == some "werewolf")).length
  let alive_others :=
    (room.players.filter (fun p => p.alive && !(p.role == some "werewolf"))).length
  if alive_wolves = 0 ∧ 0 < alive_others then some "village"
  else if 0 < alive_wolves ∧ alive_others ≤ alive_wolves then some "werewolves"
  else none

/-- Qualifying lynch vote (main.py line 225): a `vote_lynch` action with a
truthy target.  Note the source applies no phase or day filter here. -/
def qualifies (a : Action) : Bool :=
  a.action_type == "vote_lynch" && truthy a.target_name

/-- main.py `compute_lynch_votes`: last vote per voter (Python dict), tally
of the final targets, candidate by first-maximum. -/
def compute_lynch_votes (room : Room) : Option String × List (String × Nat) :=
  let votes_actions := room.actions.filter qualifies
  let last_vote_by_player :=
    votes_actions.foldl (fun m a => upsert m a.player_id (a.target_name.getD "")) []
  let counter := tally (last_vote_by_player.map Prod.snd)
  match counter with
  | [] => (none, [])
  | _ => (firstMax counter, counter)

/-- main.py `vote_preview` endpoint body: it simply reuses
`compute_lynch_votes` with no side effect. -/
def vote_preview (room : Room) : Option String × List (String × Nat) :=
  compute_lynch_votes room

-- ----- night resolver (main.py `host_resolve_night`) -----

/-- Actions stamped with the current night (main.py lines 399-402). -/
def night_actions (room : Room) : List Action :=
  room.actions.filter
    (fun a => a.phase == some "night" && a.night_number == some room.night_number)

/-- Current-night mage actions. -/
def mage_actions (room : Room) : List Action :=
  (night_actions room).filter (fun a => a.action_type == "mage_mute")

/-- Current-night guard actions. -/
def guard_actions (room : Room) : List Action :=
  (night_actions room).filter (fun a => a.action_type == "guard_protect")

/-- Current-night wolf-kill actions. -/
def wolf_actions (room : Room) : List Action :=
  (night_actions room).filter (fun a => a.action_type == "wolf_kill")

/-- Current-night gambler bets. -/
def gambler_actions (room : Room) : List Action :=
  (night_actions room).filter (fun a => a.action_type == "gambler_bet")

/-- Current-night witch heal decisions (heal or no-heal). -/
def heal_decision_actions (room : Room) : List Action :=
  (night_actions room).filter
    (fun a => a.action_type == "witch_heal" || a.action_type == "witch_no_heal")

/-- Current-night witch poison decisions (poison or no-poison). -/
def poison_decision_actions (room : Room) : List Action :=
  (night_actions room).filter
    (fun a => a.action_type == "witch_poison" || a.action_type == "witch_no_poison")

/-- Step 1 of the night resolver: truthy target of the last mage action. -/
def mage_target (room : Room) : Option String :=
  match (mage_actions room).getLast? with
  | some a => if truthy a.target_name then a.target_name else none
  | none => none

/-- Step 2: the last guard action's target (possibly null) when a guard
action exists this night. -/
def guard_last_target (room : Room) : Option String :=
  match (guard_actions room).getLast? with
  | some a => a.target_name
  | none => none

/-- Step 3 input: truthy targets of this night's wolf-kill actions, in
submission order (null or empty targets are skipped). -/
def wolf_kill_targets (room : Room) : List String :=
  (wolf_actions room).filterMap
    (fun a => match a.target_name with
      | some t => if t == "" then none else some t
      | none => none)

/-- Step 3: the most-voted wolf-kill target, Python `max` tie-break. -/
def impl_wolf_victim (room : Room) : Option String :=
  firstMax (tally (wolf_kill_targets room))

/-- Step 4: gambler bet target, only eligible from night 2 on. -/
def gambler_target (room : Room) : Option String :=
  if 2 ≤ room.night_number then
    match (gambler_actions room).getLast? with
    | some a => a.target_name
    | none => none
  else none

/-- Step 5a: whether the witch heals (charge still available and last heal
decision is `witch_heal`). -/
def use_heal (room : Room) : Bool :=
  room.witch_has_heal &&
    (match (heal_decision_actions room).getLast? with
     | some a => a.action_type == "witch_heal"
     | none => false)

/-- Step 5b: poison target (charge still available and last poison decision
is `witch_poison`). -/
def poison_target (room : Room) : Option String :=
  if room.witch_has_poison then
    match (poison_decision_actions room).getLast? with
    | some a => if a.action_type == "witch_poison" then a.target_name else none
    | none => none
  else none

/-- Wolf victim after the guard check (main.py lines 465-467). -/
def wolf_victim_after_guard (room : Room) : Option String :=
  let wv := impl_wolf_victim room
  if truthy wv && truthy (guard_last_target room) &&
      (wv == guard_last_target room) then none
  else wv

/-- Wolf victim after the heal check (main.py lines 468-470). -/
def wolf_victim_final (room : Room) : Option String :=
  let wv := wolf_victim_after_guard room
  if truthy wv && use_heal room then none else wv

/-- Death list of the night, de-duplicated preserving first occurrence
(main.py lines 462-486). -/
def night_deaths (room : Room) : List String :=
  dedupFirst (otl (wolf_victim_final room) ++ otl (gambler_target room) ++
    otl (poison_target room))

/-- Heal charge after the night: spent only inside the
`if wolf_victim and use_heal` branch (main.py lines 468-470). -/
def witch_has_heal_after (room : Room) : Bool :=
  if truthy (wolf_victim_after_guard room) && use_heal room then false
  else room.witch_has_heal

/-- Poison charge after the night: spent only when a truthy poison target
exists (main.py lines 479-481). -/
def witch_has_poison_after (room : Room) : Bool :=
  if truthy (poison_target room) then false else room.witch_has_poison

/-- Start-of-resolution reset of every player's `muted_today` flag. -/
def clear_mutes (ps : List Player) : List Player :=
  ps.map (fun p => { p with muted_today := false })

/-- Apply the mage mute to the roster (no-op when the name resolves to
nobody). -/
def apply_mute (ps : List Player) (t : Option String) : List Player :=
  match t with
  | some n => update_first_by_name ps n (fun p => { p with muted_today := true })
  | none => ps

/-- Kill each named player in order: the first roster entry with that name,
if living, is set dead; unresolvable names are ignored. -/
def kill_players (ps : List Player) (names : List String) : List Player :=
  names.foldl
    (fun acc n => update_first_by_name acc n kill_update) ps

/-- main.py `host_resolve_night` (without the host-secret gate, which is out
of the core's scope): rejects outside the night phase or after a winner,
otherwise applies mute, guard, wolf kill, gambler bet, witch heal and
poison, kills the resulting death list, and runs the win evaluator. -/
def host_resolve_night (room : Room) : Except String Room :=
  if room.phase ≠ "night" then .error "InvalidPhase"
  else if room.winner ≠ none then .error "GameEnded"
  else
    let ps1 := apply_mute (clear_mutes room.players) (mage_target room)
    let ps2 := kill_players ps1 (night_deaths room)
    let base : Room := { room with
      players := ps2
      deaths_last_night := night_deaths room
      muted_for_today := otl (mage_target room)
      last_guard_target_name :=
        if (guard_actions room).isEmpty then room.last_guard_target_name
        else guard_last_target room
      witch_has_heal := witch_has_heal_after room
      witch_has_poison := witch_has_poison_after room
      active_call := none }
    match compute_winner base with
    | some w => .ok { base with
        winner := some w
        phase := "ended"
        voting_status := "idle"
        vote_duration_sec := none }
    | none => .ok base

-- ----- day resolver (main.py `host_resolve_day`) -----

/-- main.py `host_resolve_day`: tally the lynch votes, spare a first-time
prince, otherwise lynch the candidate, then reset voting and evaluate the
winner.  When no candidate arises (or the name resolves to nobody) only the
voting fields are reset. -/
def host_resolve_day (room : Room) : Except String Room :=
  if room.phase ≠ "day" then .error "InvalidPhase"
  else if room.winner ≠ none then .error "GameEnded"
  else
    match (compute_lynch_votes room).1 with
    | none => .ok { room with voting_status := "idle", vote_duration_sec := none }
    | some candidate =>
      if candidate == "" then
        .ok { room with voting_status := "idle", vote_duration_sec := none }
      else
        match find_player_by_name room candidate with
        | none => .ok { room with voting_status := "idle", vote_duration_sec := none }
        | some target =>
          if target.role == some "prince" && !target.prince_revealed then
            let r1 : Room := { room with
              players := update_first_by_name room.players candidate reveal_update
              active_call := none
              voting_status := "idle"
              vote_duration_sec := none }
            match compute_winner r1 with
            | some w => .ok { r1 with winner := some w, phase := "ended" }
            | none => .ok r1
          else
            let r1 : Room := { room with
              players := update_first_by_name room.players candidate kill_update
              active_call := none
              voting_status := "idle"
              vote_duration_sec := none }
            match compute_winner r1 with
            | some w => .ok { r1 with winner := some w, phase := "ended" }
            | none => .ok r1

-- ----- action submission (main.py `post_action`) -----

/-- main.py `post_action`: reject unknown, dead, or post-game submitters;
otherwise append one action stamped with the current phase and the matching
cycle counter.  No check relates `action_type` to the player's role. -/
def post_action (room : Room) (pid action_type : String)
    (target_name : Option String) : Except String Room :=
  match room.players.find? (fun p => p.id == pid) with
  | none => .error "NotFound"
  | some player =>
    if !player.alive then .error "DeadPlayer"
    else if room.winner ≠ none then .error "GameEnded"
    else .ok { room with actions := room.actions ++
      [{ player_id := pid
         action_type := action_type
         target_name := target_name
         phase := some room.phase
         night_number := if room.phase == "night" then some room.night_number else none
         day_number := if room.phase == "day" then some room.day_number else none }] }

-- ----- role progress query (main.py `role_progress`) -----

/-- Current-night actions of one player (main.py inner helper). -/
def player_night_actions (room : Room) (pid : String) : List Action :=
  room.actions.filter
    (fun a => a.phase == some "night" && a.night_number == some room.night_number &&
      a.player_id == pid)

/-- Allowed action kinds per single-action role (main.py `role_actions_map`). -/
def role_actions_map (role : String) : List String :=
  if role == "mage" then ["mage_mute"]
  else if role == "guard" then ["guard_protect"]
  else if role == "werewolf" then ["wolf_kill"]
  else if role == "seer" then ["seer_inspect"]
  else if role == "gambler" then ["gambler_bet", "gambler_skip"]
  else []

/-- main.py `role_progress` (query): which living holders of the role still
owe an action this night.  The room is returned unchanged alongside the
response, making the absence of mutation explicit. -/
def role_progress (room : Room) (role : String) :
    Except String ((List String × Bool) × Room) :=
  if !(["mage", "guard", "werewolf", "seer", "witch", "gambler"].contains role) then
    .error "InvalidRole"
  else
    let alive_role_players :=
      room.players.filter (fun p => p.alive && p.role == some role)
    if alive_role_players.isEmpty then .ok (([], true), room)
    else if role == "witch" then
      let pending := alive_role_players.filterMap (fun p =>
        let acts := player_night_actions room p.id
        let has_heal_decision := acts.any
          (fun a => a.action_type == "witch_heal" || a.action_type == "witch_no_heal")
        let has_poison_decision := acts.any
          (fun a => a.action_type == "witch_poison" || a.action_type == "witch_no_poison")
        if has_heal_decision && has_poison_decision then none else some p.name)
      .ok ((pending, pending.isEmpty), room)
    else
      let allowed := role_actions_map role
      let pending := alive_role_players.filterMap (fun p =>
        let acts := (player_night_actions room p.id).filter
          (fun a => allowed.contains a.action_type)
        if acts.isEmpty then some p.name else none)
      .ok ((pending, pending.isEmpty), room)

-- ----- witch info query (main.py `witch_info`) -----

/-- Wolf victim preview as computed inside the `witch_info` endpoint
(main.py lines 772-789), transcribed from that site. -/
def witch_info_victim (room : Room) : Option String :=
  let na := room.actions.filter
    (fun a => a.phase == some "night" && a.night_number == some room.night_number)
  let wa := na.filter (fun a => a.action_type == "wolf_kill")
  firstMax (tally (wa.filterMap
    (fun a => match a.target_name with
      | some t => if t == "" then none else some t
      | none => none)))

/-- main.py `witch_info`: available to a living witch only; reports the
current wolf victim and the remaining charges. -/
def witch_info (room : Room) (pid : String) :
    Except String (Option String × Bool × Bool) :=
  match room.players.find? (fun p => p.id == pid) with
  | none => .error "Forbidden"
  | some player =>
    if !(player.role == some "witch") || !player.alive then .error "Forbidden"
    else
      let victim_name := witch_info_victim room
      .ok (victim_name, truthy victim_name && room.witch_has_heal,
        room.witch_has_poison)

-- ----- game start and phase change (main.py `start_game`, `host_set_phase`) -----

/-- main.py `start_game`, with the `random.shuffle` result passed in as the
`shuffled` id list: requires at least 4 players, deals 1 wolf below 5
players else 2, then the six named roles, then villagers, resetting every
assigned player to alive and unmuted, and re-initialises the room for
night 1. -/
def start_game (room : Room) (shuffled : List String) : Except String Room :=
  let n := room.players.length
  if n < 4 then .error "ValidationError"
  else
    let num_wolves := if n < 5 then 1 else 2
    let base_roles := List.replicate num_wolves "werewolf" ++
      ["seer", "witch", "guard", "gambler", "prince", "mage"]
    let assigned_roles :=
      if n ≤ base_roles.length then base_roles.take n
      else base_roles ++ List.replicate (n - base_roles.length) "villager"
    let ps := (shuffled.zip assigned_roles).foldl
      (fun acc kv => update_first_by_id acc kv.1
        (fun p => { p with
          role := some kv.2
          alive := true
          muted_today := false
          prince_revealed := false })) room.players
    .ok { room with
      winner := none
      players := ps
      started := true
      phase := "night"
      night_number := 1
      day_number := 0
      actions := []
      deaths_last_night := []
      muted_for_today := []
      active_call := none
      witch_has_heal := true
      witch_has_poison := true
      voting_status := "idle"
      vote_duration_sec := none }

/-- main.py `host_set_phase`: entering night bumps the night counter, clears
the log, deaths, mutes and voting state; entering day bumps the day counter
and resets call/voting state; entering lobby only sets the phase. -/
def host_set_phase (room : Room) (ph : String) : Except String Room :=
  if room.winner ≠ none then .error "GameEnded"
  else if !(ph == "night" || ph == "day" || ph == "lobby") then .error "InvalidPhase"
  else if ph == "night" then
    .ok { room with
      phase := ph
      night_number := room.night_number + 1
      actions := []
      deaths_last_night := []
      muted_for_today := []
      active_call := none
      voting_status := "idle"
      vote_duration_sec := none
      players := room.players.map (fun p => { p with muted_today := false }) }
  else if ph == "day" then
    .ok { room with
      phase := ph
      day_number := room.day_number + 1
      active_call := none
      voting_status := "idle"
      vote_duration_sec := none }
  else .ok { room with phase := ph }

-- ================== specification-side definitions ==================
-- These definitions follow the wording of the spec / claims, to be compared
-- with the transcribed implementation above.

/-- Claim wording (C1): the wolf victim is the most-voted `wolf_kill` target
of the current night, ties broken by the first target to reach the maximum
count in encounter order. -/
def claim_wolf_victim (room : Room) : Option String :=
  specFirstMax (tally (wolf_kill_targets room))

/-- Claim wording (C1): the victim is nulled (saved) if **either** the
guard's protected name equals the victim **or** the witch heals; the two
conditions are independent and either alone suffices. -/
def claim_surviving_victim (room : Room) : Option String :=
  match claim_wolf_victim room with
  | none => none
  | some v =>
    if guard_last_target room = some v ∨ use_heal room = true then none
    else some v

/-- Claim wording (C1): final death set = {surviving wolf victim if any} ∪
{gambler target if any} ∪ {poison target if any}, de-duplicated preserving
first-occurrence order. -/
def claim_night_deaths (room : Room) : List String :=
  dedupFirst (otl (claim_surviving_victim room) ++ otl (gambler_target room) ++
    otl (poison_target room))

/-- Name and alive flag of a player: the roster projection the night-death
claim talks about. -/
def nameAlive (p : Player) : String × Bool := (p.name, p.alive)

/-- Claim wording (C1): a death-set name mapping to a player kills the first
roster entry with that name; unresolvable names are silently ignored. -/
def kill_one : List (String × Bool) → String → List (String × Bool)
  | [], _ => []
  | (m, a) :: rest, n =>
    if m == n then (m, false) :: rest else (m, a) :: kill_one rest n

/-- Last value stored under a key, reading the raw pair list from the right
(spec wording: the voter's **last** submitted vote). -/
def lastAssoc (l : List (String × String)) (k : String) : Option String :=
  ((l.filter (fun kv => kv.1 == k)).getLast?).map Prod.snd

/-- Spec-level reading of a Python dict built by repeated insertion: keys in
first-occurrence order, each mapped to the last value written to it. -/
def spec_last_map (l : List (String × String)) : List (String × String) :=
  (dedupFirst (l.map Prod.fst)).filterMap
    (fun k => (lastAssoc l k).map (fun v => (k, v)))

/-- Spec-level lynch tally (C2 as amended): all `vote_lynch` actions with a
truthy target count regardless of phase/day stamps; each voter's last vote
is the one counted; targets are tallied by count; the first target to reach
the maximum count in encounter order wins. -/
def lynch_votes_spec (actions : List Action) : Option String × List (String × Nat) :=
  let pairs := (actions.filter qualifies).map
    (fun a => (a.player_id, a.target_name.getD ""))
  let counter := tally ((spec_last_map pairs).map Prod.snd)
  (specFirstMax counter, counter)

/-- Claim wording (C2 as stated): the tally restricted to `vote_lynch`
actions stamped with the room's current day number.  The implementation
applies no such restriction, which refutes the claim. -/
def claim_lynch_votes_day (room : Room) : Option String × List (String × Nat) :=
  compute_lynch_votes { room with
    actions := room.actions.filter (fun a => a.day_number == some room.day_number) }

/-- Claim wording (C3): the lynch target is spared exactly when it resolves
to a living, never-revealed prince. -/
def spared_cond (t : Player) : Bool :=
  t.alive && (t.role == some "prince") && !t.prince_revealed

/-- Claim wording (C6): a living witch is pending until she has submitted
both a heal-decision and a poison-decision in the current night. -/
def claim_witch_pending (room : Room) : List String :=
  ((room.players.filter (fun p => p.alive && p.role == some "witch")).filter
    (fun p =>
      !(room.actions.any (fun a =>
          (a.phase == some "night" && a.night_number == some room.night_number &&
            a.player_id == p.id) &&
          (a.action_type == "witch_heal" || a.action_type == "witch_no_heal")) &&
        room.actions.any (fun a =>
          (a.phase == some "night" && a.night_number == some room.night_number &&
            a.player_id == p.id) &&
          (a.action_type == "witch_poison" || a.action_type == "witch_no_poison"))))).map
    (fun p => p.name)

/-- Claim wording (C9): the second roster never shows a player alive whose
counterpart in the first roster was dead (pointwise over the roster, which
all operations preserve in length and order). -/
def alive_mono : List Player → List Player → Prop
  | [], [] => True
  | p :: ps, q :: qs => (q.alive = true → p.alive = true) ∧ alive_mono ps qs
  | _, _ => False

-- ================== lemmas: first-maximum tie-break ==================

lemma maxCount_cons (x : String × Nat) (l : List (String × Nat)) :
    maxCount (x :: l) = max x.2 (maxCount l) := rfl

lemma find_max_foldl (l : List (String × Nat)) (x : String × Nat) :
    (x :: l).find? (fun kv => maxCount (x :: l) ≤ kv.2) =
      some (l.foldl (fun best kv => if best.2 < kv.2 then kv else best) x) := by
  induction l generalizing x with
  | nil =>
    simp [List.find?, maxCount]
  | cons y t ih =>
    by_cases hxy : x.2 < y.2
    · have hM : maxCount (x :: y :: t) = maxCount (y :: t) := by
        simp only [maxCount_cons]
        omega
      have hpx : ¬ (maxCount (x :: y :: t) ≤ x.2) := by
        simp only [maxCount_cons]
        omega
      rw [List.find?_cons_of_neg _ (by simpa using hpx), hM, ih y,
        List.foldl_cons, if_pos hxy]
    · have hM : maxCount (x :: y :: t) = maxCount (x :: t) := by
        simp only [maxCount_cons]
        omega
      have hfold : (y :: t).foldl (fun best kv => if best.2 < kv.2 then kv else best) x =
          t.foldl (fun best kv => if best.2 < kv.2 then kv else best) x := by
        rw [List.foldl_cons, if_neg hxy]
      rw [hfold]
      by_cases hx : maxCount (x :: y :: t) ≤ x.2
      · have hx' : maxCount (x :: t) ≤ x.2 := by rw [← hM]; exact hx
        have h2 := ih x
        rw [List.find?_cons_of_pos _ (by simpa using hx')] at h2
        rw [List.find?_cons_of_pos _ (by simpa using hx)]
        exact h2
      · have hx' : ¬ (maxCount (x :: t) ≤ x.2) := by rw [← hM]; exact hx
        have hy : ¬ (maxCount (x :: y :: t) ≤ y.2) := by
          simp only [maxCount_cons] at hx ⊢
          omega
        have h2 := ih x
        rw [List.find?_cons_of_neg _ (by simpa using hx')] at h2
        rw [List.find?_cons_of_neg _ (by simpa using hx),
          List.find?_cons_of_neg _ (by simpa using hy), hM]
        exact h2

/-- The Python `max`-style fold and the spec's first-to-reach-the-maximum
rule pick the same tally entry. -/
lemma firstMax_eq_specFirstMax (l : List (String × Nat)) :
    firstMax l = specFirstMax l := by
  cases l with
  | nil => rfl
  | cons x t =>
    rw [firstMax, specFirstMax, find_max_foldl]
    rfl

-- ================== lemmas: membership in tallies ==================

lemma foldl_pick_mem (l : List (String × Nat)) (x : String × Nat) :
    l.foldl (fun best kv => if best.2 < kv.2 then kv else best) x ∈ x :: l := by
  induction l generalizing x with
  | nil => simp [List.foldl]
  | cons y t ih =>
    rw [List.foldl]
    by_cases h : x.2 < y.2
    · rw [if_pos h]
      rcases List.mem_cons.mp (ih y) with h' | h'
      · simp [h']
      · simp [h']
    · rw [if_neg h]
      rcases List.mem_cons.mp (ih x) with h' | h'
      · simp [h']
      · simp [h']

lemma firstMax_mem (l : List (String × Nat)) (k : String) (h : firstMax l = some k) :
    ∃ c, (k, c) ∈ l := by
  cases l with
  | nil => simp [firstMax] at h
  | cons x t =>
    rw [firstMax] at h
    have hm := foldl_pick_mem t x
    injection h with h
    subst h
    exact ⟨_, by simpa using hm⟩

lemma tallyInsert_mem (m : List (String × Nat)) (t : String) (k : String) (c : Nat)
    (h : (k, c) ∈ tallyInsert m t) : (∃ c', (k, c') ∈ m) ∨ k = t := by
  induction m with
  | nil =>
    rw [tallyInsert] at h
    right
    exact (Prod.ext_iff.mp (List.mem_singleton.mp h)).1
  | cons y m' ih =>
    obtain ⟨k0, c0⟩ := y
    rw [tallyInsert] at h
    by_cases hk : (k0 == t) = true
    · rw [if_pos hk] at h
      rcases List.mem_cons.mp h with h' | h'
      · have hkk : k = k0 := (Prod.ext_iff.mp h').1
        subst hkk
        exact Or.inl ⟨c0, List.mem_cons_self _ _⟩
      · exact Or.inl ⟨c, List.mem_cons_of_mem _ h'⟩
    · rw [if_neg hk] at h
      rcases List.mem_cons.mp h with h' | h'
      · have hkk : k = k0 := (Prod.ext_iff.mp h').1
        subst hkk
        exact Or.inl ⟨c0, List.mem_cons_self _ _⟩
      · rcases ih h' with ⟨c', hc'⟩ | h''
        · exact Or.inl ⟨c', List.mem_cons_of_mem _ hc'⟩
        · exact Or.inr h''

lemma tally_mem (l : List String) (k : String) (c : Nat)
    (h : (k, c) ∈ tally l) : k ∈ l := by
  suffices H : ∀ acc : List (String × Nat), (k, c) ∈ l.foldl tallyInsert acc →
      (∃ c', (k, c') ∈ acc) ∨ k ∈ l by
    rcases H [] h with ⟨c', hc'⟩ | h'
    · simp at hc'
    · exact h'
  clear h
  induction l with
  | nil => intro acc h; left; exact ⟨c, h⟩
  | cons x t ih =>
    intro acc h
    rw [List.foldl] at h
    rcases ih (tallyInsert acc x) h with ⟨c', hc'⟩ | h'
    · rcases tallyInsert_mem acc x k c' hc' with ⟨c'', hc''⟩ | hk
      · left; exact ⟨c'', hc''⟩
      · right; simp [hk]
    · right; exact List.mem_cons_of_mem _ h'

lemma wolf_kill_targets_ne_empty (room : Room) (s : String)
    (h : s ∈ wolf_kill_targets room) : s ≠ "" := by
  rw [wolf_kill_targets] at h
  obtain ⟨a, _, ha⟩ := List.mem_filterMap.mp h
  cases hta : a.target_name with
  | none => rw [hta] at ha; simp at ha
  | some t =>
    rw [hta] at ha
    by_cases ht : (t == "") = true
    · simp [ht] at ha
    · simp [ht] at ha
      subst ha
      simpa using ht

lemma impl_wolf_victim_ne_empty (room : Room) (v : String)
    (h : impl_wolf_victim room = some v) : v ≠ "" := by
  rw [impl_wolf_victim] at h
  obtain ⟨c, hc⟩ := firstMax_mem _ _ h
  exact wolf_kill_targets_ne_empty room v (tally_mem _ _ _ hc)

-- ================== lemmas: dict insertion vs last-wins reading ==================

lemma filterMap_congr_local {α β : Type} (l : List α) (f g : α → Option β)
    (h : ∀ a ∈ l, f a = g a) : l.filterMap f = l.filterMap g := by
  induction l with
  | nil => rfl
  | cons x t ih =>
    rw [List.filterMap_cons, List.filterMap_cons, h x (List.mem_cons_self _ _),
      ih (fun a ha => h a (List.mem_cons_of_mem _ ha))]

lemma filter_congr_local {α : Type} (l : List α) (p q : α → Bool)
    (h : ∀ a ∈ l, p a = q a) : l.filter p = l.filter q := by
  induction l with
  | nil => rfl
  | cons x t ih =>
    rw [List.filter_cons, List.filter_cons, h x (List.mem_cons_self _ _),
      ih (fun a ha => h a (List.mem_cons_of_mem _ ha))]

lemma dedupFirst_step_mem (l : List String) (acc : List String) (a : String) :
    a ∈ l.foldl (fun acc x => if x ∈ acc then acc else acc ++ [x]) acc ↔
      a ∈ acc ∨ a ∈ l := by
  induction l generalizing acc with
  | nil => simp
  | cons x t ih =>
    rw [List.foldl_cons]
    by_cases hx : x ∈ acc
    · rw [if_pos hx, ih]
      simp only [List.mem_cons]
      constructor
      · rintro (h | h)
        · exact Or.inl h
        · exact Or.inr (Or.inr h)
      · rintro (h | h | h)
        · exact Or.inl h
        · exact Or.inl (by rw [h]; exact hx)
        · exact Or.inr h
    · rw [if_neg hx, ih]
      simp only [List.mem_append, List.mem_singleton, List.mem_cons]
      tauto

lemma mem_dedupFirst (l : List String) (a : String) :
    a ∈ dedupFirst l ↔ a ∈ l := by
  rw [dedupFirst, dedupFirst_step_mem]
  simp

lemma dedupFirst_nodup_aux (l : List String) (acc : List String) (h : acc.Nodup) :
    (l.foldl (fun acc x => if x ∈ acc then acc else acc ++ [x]) acc).Nodup := by
  induction l generalizing acc with
  | nil => exact h
  | cons x t ih =>
    rw [List.foldl_cons]
    by_cases hx : x ∈ acc
    · rw [if_pos hx]; exact ih acc h
    · rw [if_neg hx]
      refine ih _ ?_
      rw [List.nodup_append]
      refine ⟨h, List.nodup_singleton x, ?_⟩
      intro a ha hax
      rw [List.mem_singleton] at hax
      subst hax
      exact hx ha

lemma dedupFirst_nodup (l : List String) : (dedupFirst l).Nodup :=
  dedupFirst_nodup_aux l [] List.nodup_nil

lemma dedupFirst_append (l : List String) (x : String) :
    dedupFirst (l ++ [x]) =
      if x ∈ l then dedupFirst l else dedupFirst l ++ [x] := by
  simp only [dedupFirst, List.foldl_append, List.foldl_cons, List.foldl_nil]
  by_cases hx : x ∈ l
  · rw [if_pos hx,
      if_pos (show x ∈ l.foldl (fun acc x => if x ∈ acc then acc else acc ++ [x]) [] from
        (dedupFirst_step_mem l [] x).mpr (Or.inr hx))]
  · rw [if_neg hx,
      if_neg (show x ∉ l.foldl (fun acc x => if x ∈ acc then acc else acc ++ [x]) [] from
        fun hc => by rcases (dedupFirst_step_mem l [] x).mp hc with h | h
                     · simp at h
                     · exact hx h)]

lemma lastAssoc_append (l : List (String × String)) (k v k' : String) :
    lastAssoc (l ++ [(k, v)]) k' = if k' = k then some v else lastAssoc l k' := by
  by_cases hk : k' = k
  · subst hk
    rw [if_pos rfl, lastAssoc, List.filter_append]
    have hf : List.filter (fun kv => kv.1 == k') [(k', v)] = [(k', v)] := by
      rw [List.filter_cons, if_pos (by simp)]
      rfl
    rw [hf, List.getLast?_concat]
    rfl
  · rw [if_neg hk, lastAssoc, List.filter_append]
    have hf : List.filter (fun kv => kv.1 == k') [(k, v)] = [] := by
      rw [List.filter_cons,
        if_neg (by simp only [beq_iff_eq]; exact fun h => hk h.symm)]
      rfl
    rw [hf, List.append_nil]
    rfl

lemma lastAssoc_isSome (l : List (String × String)) (k : String)
    (h : k ∈ l.map Prod.fst) : ∃ v, lastAssoc l k = some v := by
  obtain ⟨kv, hkv, hfst⟩ := List.mem_map.mp h
  have hmem : kv ∈ l.filter (fun kv => kv.1 == k) :=
    List.mem_filter.mpr ⟨hkv, by simp [hfst]⟩
  have hne : l.filter (fun kv => kv.1 == k) ≠ [] := List.ne_nil_of_mem hmem
  obtain ⟨x, hx⟩ := Option.isSome_iff_exists.mp (List.getLast?_isSome.mpr hne)
  exact ⟨x.2, by rw [lastAssoc, hx]; rfl⟩

lemma upsert_not_mem (m : List (String × String)) (k v : String)
    (h : k ∉ m.map Prod.fst) : upsert m k v = m ++ [(k, v)] := by
  induction m with
  | nil => rfl
  | cons y m' ih =>
    obtain ⟨k0, v0⟩ := y
    rw [upsert]
    have hk : ¬ (k0 == k) = true := by
      simp only [beq_iff_eq]
      intro he
      apply h
      rw [List.map_cons, he]
      exact List.mem_cons_self _ _
    rw [if_neg hk, ih (fun hc => h (by rw [List.map_cons]; exact List.mem_cons_of_mem _ hc))]
    rfl

lemma upsert_filterMap_mem (l : List (String × String)) (K : List String) (k v : String)
    (hnd : K.Nodup) (hk : k ∈ K)
    (hsome : ∀ k' ∈ K, ∃ w, lastAssoc l k' = some w) :
    upsert (K.filterMap (fun k' => (lastAssoc l k').map (fun w => (k', w)))) k v =
      K.filterMap (fun k' => (lastAssoc (l ++ [(k, v)]) k').map (fun w => (k', w))) := by
  induction K with
  | nil => cases hk
  | cons k0 K' ih =>
    obtain ⟨hk0nm, hnd'⟩ := List.nodup_cons.mp hnd
    obtain ⟨w0, hw0⟩ := hsome k0 (List.mem_cons_self _ _)
    rw [List.filterMap_cons, List.filterMap_cons, hw0]
    by_cases hkk : k0 = k
    · subst hkk
      rw [lastAssoc_append, if_pos rfl]
      simp only [Option.map_some']
      rw [upsert, if_pos (by simp)]
      congr 1
      apply filterMap_congr_local
      intro a ha
      have hak : ¬ a = k0 := fun he => hk0nm (he ▸ ha)
      rw [lastAssoc_append, if_neg hak]
    · have hg' : lastAssoc (l ++ [(k, v)]) k0 = some w0 := by
        rw [lastAssoc_append, if_neg hkk, hw0]
      rw [hg']
      simp only [Option.map_some']
      rw [upsert, if_neg (by simpa using hkk)]
      congr 1
      apply ih hnd'
      · rcases List.mem_cons.mp hk with h | h
        · exact absurd h.symm hkk
        · exact h
      · exact fun k' hk' => hsome k' (List.mem_cons_of_mem _ hk')

lemma spec_last_map_keys (l : List (String × String)) (k' : String) (w : String)
    (h : (k', w) ∈ spec_last_map l) : k' ∈ dedupFirst (l.map Prod.fst) := by
  rw [spec_last_map] at h
  obtain ⟨a, ha, hga⟩ := List.mem_filterMap.mp h
  cases hw : lastAssoc l a with
  | none => rw [hw] at hga; simp at hga
  | some w' =>
    rw [hw] at hga
    simp only [Option.map_some', Option.some.injEq] at hga
    have : a = k' := congrArg Prod.fst hga
    rw [← this]
    exact ha

lemma upsert_spec_last (l : List (String × String)) (k v : String) :
    upsert (spec_last_map l) k v = spec_last_map (l ++ [(k, v)]) := by
  by_cases hk : k ∈ l.map Prod.fst
  · rw [spec_last_map, spec_last_map, List.map_append]
    simp only [List.map_cons, List.map_nil]
    rw [dedupFirst_append, if_pos hk]
    exact upsert_filterMap_mem l (dedupFirst (l.map Prod.fst)) k v
      (dedupFirst_nodup _) ((mem_dedupFirst _ _).mpr hk)
      (fun k' hk' => lastAssoc_isSome l k' ((mem_dedupFirst _ _).mp hk'))
  · rw [spec_last_map, spec_last_map, List.map_append]
    simp only [List.map_cons, List.map_nil]
    rw [dedupFirst_append, if_neg hk, List.filterMap_append]
    have h1 : (dedupFirst (l.map Prod.fst)).filterMap
        (fun k' => (lastAssoc (l ++ [(k, v)]) k').map (fun w => (k', w))) =
        (dedupFirst (l.map Prod.fst)).filterMap
        (fun k' => (lastAssoc l k').map (fun w => (k', w))) := by
      apply filterMap_congr_local
      intro a ha
      have hak : ¬ a = k := fun he => hk (by rw [← he]; exact (mem_dedupFirst _ _).mp ha)
      rw [lastAssoc_append, if_neg hak]
    have h2 : ([k]).filterMap
        (fun k' => (lastAssoc (l ++ [(k, v)]) k').map (fun w => (k', w))) = [(k, v)] := by
      rw [List.filterMap_cons, lastAssoc_append, if_pos rfl]
      rfl
    rw [h1, h2]
    apply upsert_not_mem
    intro hc
    obtain ⟨p, hp, hpk⟩ := List.mem_map.mp hc
    obtain ⟨k', hk', hgk⟩ := List.mem_filterMap.mp hp
    cases hw : lastAssoc l k' with
    | none => rw [hw] at hgk; simp at hgk
    | some w =>
      rw [hw] at hgk
      simp only [Option.map_some', Option.some.injEq] at hgk
      apply hk
      have hpfst : p.1 = k' := by rw [← hgk]
      rw [← hpk] at *
      rw [hpfst] at *
      exact (mem_dedupFirst _ _).mp hk'

lemma fold_upsert_spec (l : List (String × String)) :
    l.foldl (fun m kv => upsert m kv.1 kv.2) [] = spec_last_map l := by
  induction l using List.reverseRecOn with
  | nil => rfl
  | append_singleton t x ih =>
    obtain ⟨k, v⟩ := x
    rw [List.foldl_append, List.foldl_cons, List.foldl_nil, ih, upsert_spec_last]

/-- The implementation's dict-fold lynch tally equals the specification-level
last-vote-per-voter tally, independently of phase and day stamps. -/
lemma compute_lynch_votes_eq_spec (room : Room) :
    compute_lynch_votes room = lynch_votes_spec room.actions := by
  simp only [compute_lynch_votes, lynch_votes_spec]
  have hfold : (room.actions.filter qualifies).foldl
      (fun m a => upsert m a.player_id (a.target_name.getD "")) [] =
      spec_last_map ((room.actions.filter qualifies).map
        (fun a => (a.player_id, a.target_name.getD ""))) := by
    rw [← fold_upsert_spec, List.foldl_map]
  rw [hfold]
  cases hcv : tally (List.map Prod.snd (spec_last_map
      ((room.actions.filter qualifies).map
        (fun a => (a.player_id, a.target_name.getD ""))))) with
  | nil => rfl
  | cons a t => rw [firstMax_eq_specFirstMax]

-- ================== lemmas: roster projections ==================

lemma update_preserve_proj (ps : List Player) (n : String) (f : Player → Player)
    (hf : ∀ p, (f p).name = p.name ∧ (f p).alive = p.alive) :
    (update_first_by_name ps n f).map nameAlive = ps.map nameAlive := by
  induction ps with
  | nil => rfl
  | cons p rest ih =>
    rw [update_first_by_name]
    by_cases hp : (p.name == n) = true
    · rw [if_pos hp, List.map_cons, List.map_cons]
      congr 1
      rw [nameAlive, nameAlive, (hf p).1, (hf p).2]
    · rw [if_neg hp, List.map_cons, List.map_cons, ih]

lemma nameAlive_fst (p : Player) : (nameAlive p).1 = p.name := rfl

lemma nameAlive_snd (p : Player) : (nameAlive p).2 = p.alive := rfl

lemma update_kill_proj (ps : List Player) (n : String) :
    (update_first_by_name ps n kill_update).map nameAlive =
      kill_one (ps.map nameAlive) n := by
  induction ps with
  | nil => rfl
  | cons p rest ih =>
    rw [update_first_by_name, List.map_cons, kill_one]
    simp only [nameAlive_fst, nameAlive_snd]
    by_cases hp : (p.name == n) = true
    · rw [if_pos hp, if_pos hp, List.map_cons]
      congr 1
      rw [kill_update]
      by_cases ha : p.alive
      · rw [if_pos ha]; rfl
      · rw [if_neg ha, nameAlive]
        have hfa : p.alive = false := by simpa using ha
        rw [hfa]
    · rw [if_neg hp, if_neg hp, List.map_cons, ih]
      rfl

lemma clear_mutes_proj (ps : List Player) :
    (clear_mutes ps).map nameAlive = ps.map nameAlive := by
  rw [clear_mutes, List.map_map]
  rfl

lemma apply_mute_proj (ps : List Player) (t : Option String) :
    (apply_mute ps t).map nameAlive = ps.map nameAlive := by
  cases t with
  | none => rfl
  | some n => exact update_preserve_proj ps n _ (fun p => ⟨rfl, rfl⟩)

lemma kill_players_proj (names : List String) (ps : List Player) :
    (kill_players ps names).map nameAlive =
      names.foldl kill_one (ps.map nameAlive) := by
  induction names generalizing ps with
  | nil => rfl
  | cons n rest ih =>
    rw [kill_players, List.foldl_cons, List.foldl_cons]
    rw [show (rest.foldl _ (update_first_by_name ps n _)) = kill_players
      (update_first_by_name ps n kill_update) rest from rfl]
    rw [ih, update_kill_proj]

-- ================== lemmas: night victim equivalence ==================

lemma truthy_some_of_ne (v : String) (h : v ≠ "") : truthy (some v) = true := by
  rw [truthy]
  simpa using h

lemma otl_of_not_truthy (x : Option String) (h : truthy x = false) : otl x = [] := by
  cases x with
  | none => rfl
  | some s =>
    rw [truthy] at h
    simp at h
    rw [otl, if_pos (by simpa using h)]

/-- The sequential guard-then-heal nulling of the implementation agrees with
the claim's independent disjunction of the two cancellation conditions. -/
lemma wolf_victim_final_eq_claim (room : Room) :
    wolf_victim_final room = claim_surviving_victim room := by
  have himpl : claim_wolf_victim room = impl_wolf_victim room := by
    rw [claim_wolf_victim, impl_wolf_victim, firstMax_eq_specFirstMax]
  rw [claim_surviving_victim, himpl]
  cases hv : impl_wolf_victim room with
  | none =>
    simp [wolf_victim_final, wolf_victim_after_guard, hv, truthy]
  | some v =>
    have hvne : v ≠ "" := impl_wolf_victim_ne_empty room v hv
    have htv : truthy (some v) = true := truthy_some_of_ne v hvne
    change wolf_victim_final room =
      (if guard_last_target room = some v ∨ use_heal room = true then none else some v)
    by_cases hg : guard_last_target room = some v
    · have hW1 : wolf_victim_after_guard room = none := by
        simp [wolf_victim_after_guard, hv, hg, htv]
      rw [if_pos (Or.inl hg)]
      simp [wolf_victim_final, hW1, truthy]
    · have hbeq : (some v == guard_last_target room) = false := by
        cases hgl : guard_last_target room with
        | none => rfl
        | some g =>
          simp only [beq_eq_false_iff_ne, ne_eq, Option.some.injEq]
          intro he
          exact hg (by rw [hgl, he])
      have hW2 : wolf_victim_after_guard room = some v := by
        simp [wolf_victim_after_guard, hv, hbeq]
      by_cases hh : use_heal room = true
      · rw [if_pos (Or.inr hh)]
        simp [wolf_victim_final, hW2, htv, hh]
      · have hcond : ¬ (guard_last_target room = some v ∨ use_heal room = true) := by
          rintro (h | h)
          · exact hg h
          · exact hh h
        rw [if_neg hcond]
        have hh' : use_heal room = false := by simpa using hh
        simp [wolf_victim_final, hW2, htv, hh']

-- ================== lemmas: resolver unfolding helpers ==================

lemma resolve_night_fields (room r' : Room) (h1 : room.phase = "night")
    (h2 : room.winner = none) (h : host_resolve_night room = .ok r') :
    r'.players = kill_players (apply_mute (clear_mutes room.players) (mage_target room))
      (night_deaths room) ∧
    r'.deaths_last_night = night_deaths room ∧
    r'.witch_has_heal = witch_has_heal_after room ∧
    r'.witch_has_poison = witch_has_poison_after room := by
  simp only [host_resolve_night] at h
  rw [if_neg (by simp [h1]), if_neg (by simp [h2])] at h
  split at h
  · injection h with h
    subst h
    exact ⟨rfl, rfl, rfl, rfl⟩
  · injection h with h
    subst h
    exact ⟨rfl, rfl, rfl, rfl⟩

lemma spec_last_map_val (l : List (String × String)) (k w : String)
    (h : (k, w) ∈ spec_last_map l) : (k, w) ∈ l := by
  rw [spec_last_map] at h
  obtain ⟨a, _, hga⟩ := List.mem_filterMap.mp h
  cases hw : lastAssoc l a with
  | none => rw [hw] at hga; simp at hga
  | some w' =>
    rw [hw] at hga
    simp only [Option.map_some', Option.some.injEq] at hga
    rw [lastAssoc] at hw
    cases hgl : (l.filter (fun kv => kv.1 == a)).getLast? with
    | none => rw [hgl] at hw; simp at hw
    | some kv =>
      rw [hgl] at hw
      simp only [Option.map_some', Option.some.injEq] at hw
      have hmem : kv ∈ l.filter (fun kv => kv.1 == a) := by
        have hne : l.filter (fun kv => kv.1 == a) ≠ [] := by
          intro hc
          rw [hc] at hgl
          simp at hgl
        rw [List.getLast?_eq_getLast _ hne] at hgl
        injection hgl with hgl
        rw [← hgl]
        exact List.getLast_mem hne
      have hkv1 : kv.1 = a := by
        have := (List.mem_filter.mp hmem).2
        simpa using this
      have hkvl : kv ∈ l := List.mem_of_mem_filter hmem
      have : kv = (k, w) := by
        rw [← hga]
        rw [Prod.ext_iff]
        exact ⟨hkv1, hw⟩
      rw [← this]
      exact hkvl

lemma lynch_pair_snd_ne (room : Room) (k w : String)
    (h : (k, w) ∈ (room.actions.filter qualifies).map
      (fun a => (a.player_id, a.target_name.getD ""))) : w ≠ "" := by
  obtain ⟨a, ha, hpair⟩ := List.mem_map.mp h
  have hq : qualifies a = true := (List.mem_filter.mp ha).2
  rw [qualifies, Bool.and_eq_true] at hq
  have htr := hq.2
  cases hta : a.target_name with
  | none => rw [hta, truthy] at htr; simp at htr
  | some s =>
    rw [hta, truthy] at htr
    have hs : s ≠ "" := by simpa using htr
    have hw : w = s := by
      have := congrArg Prod.snd hpair
      simpa [hta] using this.symm
    rw [hw]
    exact hs

lemma lynch_candidate_ne_empty (room : Room) (c : String)
    (h : (compute_lynch_votes room).1 = some c) : c ≠ "" := by
  rw [compute_lynch_votes_eq_spec] at h
  have hfm : firstMax (tally ((spec_last_map ((room.actions.filter qualifies).map
      (fun a => (a.player_id, a.target_name.getD "")))).map Prod.snd)) = some c := by
    rw [firstMax_eq_specFirstMax]
    exact h
  obtain ⟨cnt, hmem⟩ := firstMax_mem _ _ hfm
  have hcv : c ∈ (spec_last_map ((room.actions.filter qualifies).map
      (fun a => (a.player_id, a.target_name.getD "")))).map Prod.snd :=
    tally_mem _ _ _ hmem
  obtain ⟨p, hp, hpc⟩ := List.mem_map.mp hcv
  have hpl : (p.1, p.2) ∈ (room.actions.filter qualifies).map
      (fun a => (a.player_id, a.target_name.getD "")) :=
    spec_last_map_val _ _ _ (by simpa using hp)
  have := lynch_pair_snd_ne room p.1 p.2 hpl
  rw [← hpc]
  exact this

lemma find?_name_cons_pos (q : Player) (ps : List Player) (n : String)
    (h : (q.name == n) = true) :
    (q :: ps).find? (fun p => p.name == n) = some q := by
  simp only [List.find?, h]

lemma find?_name_cons_neg (q : Player) (ps : List Player) (n : String)
    (h : (q.name == n) = false) :
    (q :: ps).find? (fun p => p.name == n) = ps.find? (fun p => p.name == n) := by
  simp only [List.find?, h]

lemma find_update_first (ps : List Player) (n : String) (f : Player → Player)
    (hf : ∀ p, (f p).name = p.name) :
    (update_first_by_name ps n f).find? (fun p => p.name == n) =
      (ps.find? (fun p => p.name == n)).map f := by
  induction ps with
  | nil => rfl
  | cons p rest ih =>
    rw [update_first_by_name]
    by_cases hp : (p.name == n) = true
    · rw [if_pos hp,
        find?_name_cons_pos (f p) rest n (by rw [hf p]; exact hp),
        find?_name_cons_pos p rest n hp]
      rfl
    · have hp' : (p.name == n) = false := by simpa using hp
      rw [if_neg hp, find?_name_cons_neg p _ n hp',
        find?_name_cons_neg p rest n hp', ih]

-- ================== lemmas: no revival ==================

lemma alive_mono_refl (ps : List Player) : alive_mono ps ps := by
  induction ps with
  | nil => trivial
  | cons p rest ih => exact ⟨fun h => h, ih⟩

lemma alive_mono_nil_cons (q : Player) (qs : List Player) :
    ¬ alive_mono [] (q :: qs) := fun h => by simp [alive_mono] at h

lemma alive_mono_cons_nil (p : Player) (ps : List Player) :
    ¬ alive_mono (p :: ps) [] := fun h => by simp [alive_mono] at h

lemma alive_mono_trans (a b c : List Player) (h1 : alive_mono a b)
    (h2 : alive_mono b c) : alive_mono a c := by
  induction a generalizing b c with
  | nil =>
    cases b with
    | nil =>
      cases c with
      | nil => trivial
      | cons r rs => exact absurd h2 (alive_mono_nil_cons r rs)
    | cons q qs => exact absurd h1 (alive_mono_nil_cons q qs)
  | cons p ps ih =>
    cases b with
    | nil => exact absurd h1 (alive_mono_cons_nil p ps)
    | cons q qs =>
      cases c with
      | nil => exact absurd h2 (alive_mono_cons_nil q qs)
      | cons r rs =>
        exact ⟨fun h => h1.1 (h2.1 h), ih qs rs h1.2 h2.2⟩

lemma alive_mono_map (ps : List Player) (f : Player → Player)
    (hf : ∀ p, (f p).alive = true → p.alive = true) :
    alive_mono ps (ps.map f) := by
  induction ps with
  | nil => trivial
  | cons p rest ih => exact ⟨hf p, ih⟩

lemma alive_mono_update (ps : List Player) (n : String) (f : Player → Player)
    (hf : ∀ p, (f p).alive = true → p.alive = true) :
    alive_mono ps (update_first_by_name ps n f) := by
  induction ps with
  | nil => trivial
  | cons p rest ih =>
    rw [update_first_by_name]
    by_cases hp : (p.name == n) = true
    · rw [if_pos hp]
      exact ⟨hf p, alive_mono_refl rest⟩
    · rw [if_neg hp]
      exact ⟨fun h => h, ih⟩

lemma kill_fn_mono (q : Player) : (kill_update q).alive = true → q.alive = true := by
  intro h
  by_cases ha : q.alive = true
  · exact ha
  · rw [kill_update, if_neg ha] at h
    exact absurd h ha

lemma alive_mono_kill_players (ps : List Player) (names : List String) :
    alive_mono ps (kill_players ps names) := by
  induction names generalizing ps with
  | nil => exact alive_mono_refl ps
  | cons n rest ih =>
    exact alive_mono_trans _ _ _
      (alive_mono_update ps n _ kill_fn_mono)
      (ih (update_first_by_name ps n kill_update))

lemma alive_mono_clear_mutes (ps : List Player) : alive_mono ps (clear_mutes ps) :=
  alive_mono_map ps _ (fun _ h => h)

lemma alive_mono_apply_mute (ps : List Player) (t : Option String) :
    alive_mono ps (apply_mute ps t) := by
  cases t with
  | none => exact alive_mono_refl ps
  | some n => exact alive_mono_update ps n _ (fun _ h => h)

lemma compute_winner_eq_of_players (r s : Room) (h : r.players = s.players) :
    compute_winner r = compute_winner s := by
  simp only [compute_winner, h]

lemma count_proj_aux (ps : List Player) (q : Option String × Bool → Bool) :
    (ps.filter (fun p => q (p.role, p.alive))).length =
      (ps.map (fun p => (p.role, p.alive))).countP q := by
  rw [List.countP_map, ← List.countP_eq_length_filter]
  rfl

lemma compute_winner_proj (room r2 : Room)
    (h : room.players.map (fun p => (p.role, p.alive)) =
      r2.players.map (fun p => (p.role, p.alive))) :
    compute_winner room = compute_winner r2 := by
  have hW : ∀ r : Room, (r.players.filter
      (fun p => p.alive && p.role == some "werewolf")).length =
      (r.players.map (fun p => (p.role, p.alive))).countP
        (fun x => x.2 && x.1 == some "werewolf") := by
    intro r
    rw [← count_proj_aux]
  have hO : ∀ r : Room, (r.players.filter
      (fun p => p.alive && !(p.role == some "werewolf"))).length =
      (r.players.map (fun p => (p.role, p.alive))).countP
        (fun x => x.2 && !(x.1 == some "werewolf")) := by
    intro r
    rw [← count_proj_aux]
  simp only [compute_winner]
  rw [hW room, hO room, hW r2, hO r2, h]

lemma any_filter_local (l : List Action) (p q : Action → Bool) :
    (l.filter p).any q = l.any (fun a => p a && q a) := by
  induction l with
  | nil => rfl
  | cons x t ih =>
    rw [List.filter_cons]
    by_cases hx : p x = true
    · rw [if_pos hx, List.any_cons, List.any_cons, ih, hx]
      simp
    · have hx' : p x = false := by simpa using hx
      rw [if_neg hx, ih, List.any_cons, hx']
      simp

lemma filterMap_if_name (l : List Player) (b : Player → Bool) :
    l.filterMap (fun p => if b p then none else some p.name) =
      (l.filter (fun p => !b p)).map (fun p => p.name) := by
  induction l with
  | nil => rfl
  | cons x t ih =>
    rw [List.filterMap_cons, List.filter_cons]
    by_cases hx : b x = true
    · rw [if_pos hx]
      have : (!b x) = false := by rw [hx]; rfl
      rw [this]
      simpa using ih
    · have hx' : b x = false := by simpa using hx
      rw [if_neg (by rw [hx']; exact Bool.false_ne_true)]
      have : (!b x) = true := by rw [hx']; rfl
      rw [this]
      simp only [if_true, List.map_cons]
      rw [ih]

-- ================== example rooms for witnesses and counterexamples ==================

/-- A living villager. -/
def pA : Player := { id := "a", name := "A", role := some "villager" }

/-- A living werewolf. -/
def pB : Player := { id := "b", name := "B", role := some "werewolf" }

/-- A living witch. -/
def pW : Player := { id := "w", name := "W", role := some "witch" }

/-- A living seer. -/
def pS : Player := { id := "s", name := "S", role := some "seer" }

/-- A wolf-kill submission of night 1 targeting A. -/
def actWolfKillA : Action :=
  { player_id := "b"
    action_type := "wolf_kill"
    target_name := some "A"
    phase := some "night"
    night_number := some 1 }

-- ================== claim theorems ==================

/-- C1: for every room in phase night with no winner, resolve_night computes
the wolf victim as the most-voted wolf_kill target of the current night
(first-maximum tie-break), nulls the victim when the guard's protected name
equals the victim or the witch heals (either condition alone suffices), and
the resulting death list is {surviving wolf victim} ∪ {gambler target} ∪
{poison target} de-duplicated in first-occurrence order; each name mapping
to a living player is set dead, unresolvable names are ignored. -/
theorem claim_C1_night_resolution (room r' : Room) (h1 : room.phase = "night")
    (h2 : room.winner = none) (h : host_resolve_night room = .ok r') :
    r'.deaths_last_night = claim_night_deaths room ∧
    r'.players.map nameAlive =
      (claim_night_deaths room).foldl kill_one (room.players.map nameAlive) := by
  obtain ⟨hp, hd, _, _⟩ := resolve_night_fields room r' h1 h2 h
  have hnd : night_deaths room = claim_night_deaths room := by
    rw [night_deaths, claim_night_deaths, wolf_victim_final_eq_claim]
  constructor
  · rw [hd, hnd]
  · rw [hp, kill_players_proj, apply_mute_proj, clear_mutes_proj, hnd]

/-- Room for the C1 witness: a werewolf kills A on night 1. -/
def W1 : Room :=
  { code := "r"
    players := [pB, pA]
    phase := "night"
    night_number := 1
    actions := [actWolfKillA] }

/-- Expected result of resolving night 1 of `W1`: A dies and, with no other
living villager, the werewolves win. -/
def W1res : Room :=
  { W1 with
    players := [pB, { pA with alive := false }]
    deaths_last_night := ["A"]
    winner := some "werewolves"
    phase := "ended" }

/-- Witness for C1 at the concrete room `W1`. -/
theorem claim_C1_night_resolution_witness :
    W1.phase = "night" ∧ W1.winner = none ∧
    (W1res.deaths_last_night = claim_night_deaths W1 ∧
     W1res.players.map nameAlive =
       (claim_night_deaths W1).foldl kill_one (W1.players.map nameAlive)) :=
  ⟨rfl, rfl, claim_C1_night_resolution W1 W1res rfl rfl rfl⟩

/-- C2 (amended): the lynch tally used by resolve_day and vote_preview counts
every `vote_lynch` action with a non-empty target in the log — regardless of
its phase or day stamp — keeping each voter's last vote, tallying targets by
count, with the first target to reach the maximum in encounter order winning;
the original claim's restriction to actions stamped with the current day
number does not hold. -/
theorem claim_C2_lynch_tally (room : Room) :
    compute_lynch_votes room = lynch_votes_spec room.actions ∧
    vote_preview room = compute_lynch_votes room :=
  ⟨compute_lynch_votes_eq_spec room, rfl⟩

/-- Room refuting C2 as stated: the only vote is stamped with day 1 while the
room is on day 2. -/
def C2room : Room :=
  { code := "r"
    players := []
    phase := "day"
    day_number := 2
    actions := [{ player_id := "p1"
                  action_type := "vote_lynch"
                  target_name := some "A"
                  phase := some "day"
                  day_number := some 1 }] }

/-- C2 counterexample: the implementation still counts the stale day-1 vote
(candidate A), while the tally the claim describes — restricted to actions
stamped with the current day number — is empty. -/
theorem claim_C2_counterexample :
    C2room.day_number = 2 ∧
    compute_lynch_votes C2room = (some "A", [("A", 1)]) ∧
    claim_lynch_votes_day C2room = (none, []) :=
  ⟨rfl, rfl, rfl⟩

/-- C5: the win evaluator returns village exactly when no living werewolf
remains and some other player lives, werewolves exactly when living wolves
reach parity with the living others, no winner otherwise; and it is a pure
function of the living players' roles. -/
theorem claim_C5_win_evaluator (room : Room) :
    (compute_winner room = some "village" ↔
      ((room.players.filter (fun p => p.alive && p.role == some "werewolf")).length = 0 ∧
       0 < (room.players.filter (fun p => p.alive && !(p.role == some "werewolf"))).length)) ∧
    (compute_winner room = some "werewolves" ↔
      (0 < (room.players.filter (fun p => p.alive && p.role == some "werewolf")).length ∧
       (room.players.filter (fun p => p.alive && !(p.role == some "werewolf"))).length ≤
         (room.players.filter (fun p => p.alive && p.role == some "werewolf")).length)) ∧
    (compute_winner room = none ↔
      (¬ ((room.players.filter (fun p => p.alive && p.role == some "werewolf")).length = 0 ∧
          0 < (room.players.filter (fun p => p.alive && !(p.role == some "werewolf"))).length) ∧
       ¬ (0 < (room.players.filter (fun p => p.alive && p.role == some "werewolf")).length ∧
          (room.players.filter (fun p => p.alive && !(p.role == some "werewolf"))).length ≤
            (room.players.filter (fun p => p.alive && p.role == some "werewolf")).length))) ∧
    (∀ r2 : Room, room.players.map (fun p => (p.role, p.alive)) =
      r2.players.map (fun p => (p.role, p.alive)) →
      compute_winner room = compute_winner r2) := by
  have hvw : ("village" : String) ≠ "werewolves" := by decide
  refine ⟨?_, ?_, ?_, fun r2 h => compute_winner_proj room r2 h⟩
  · simp only [compute_winner]
    split_ifs with hc1 hc2
    · exact ⟨fun _ => hc1, fun _ => rfl⟩
    · constructor
      · intro hx; exact absurd (Option.some.inj hx).symm hvw
      · intro hx; exact absurd hx hc1
    · constructor
      · intro hx; simp at hx
      · intro hx; exact absurd hx hc1
  · simp only [compute_winner]
    split_ifs with hc1 hc2
    · constructor
      · intro hx; exact absurd (Option.some.inj hx) hvw
      · intro hx
        obtain ⟨ha, hb⟩ := hc1
        obtain ⟨hx1, hx2⟩ := hx
        exact False.elim (by omega)
    · exact ⟨fun _ => hc2, fun _ => rfl⟩
    · constructor
      · intro hx; simp at hx
      · intro hx; exact absurd hx hc2
  · simp only [compute_winner]
    split_ifs with hc1 hc2
    · constructor
      · intro hx; simp at hx
      · intro hx; exact absurd hc1 hx.1
    · constructor
      · intro hx; simp at hx
      · intro hx; exact absurd hc2 hx.2
    · exact ⟨fun _ => ⟨hc1, hc2⟩, fun _ => rfl⟩

/-- Room for the C5 witness: a lone living villager, no wolves. -/
def C5room : Room := { code := "r", players := [pA] }

/-- Same living-role multiset as `C5room` with a different identity. -/
def C5room2 : Room :=
  { code := "q", players := [{ id := "z", name := "Z", role := some "villager" }] }

/-- Witness for C5: the village wins in `C5room`, and the evaluator agrees on
any roster with the same roles and liveness. -/
theorem claim_C5_win_evaluator_witness :
    compute_winner C5room = compute_winner C5room2 ∧
    compute_winner C5room = some "village" :=
  ⟨(claim_C5_win_evaluator C5room).2.2.2 C5room2 rfl,
   (claim_C5_win_evaluator C5room).1.mpr (by decide)⟩

/-- C10: the victim preview computed by the witch_info query coincides with
the wolf victim resolve_night's wolf-kill step selects (same tally, same
first-maximum tie-break), and the query reports exactly that name together
with the charge flags to a living witch. -/
theorem claim_C10_witch_info_victim (room : Room) :
    witch_info_victim room = impl_wolf_victim room ∧
    (∀ pid p, room.players.find? (fun q => q.id == pid) = some p →
      p.role = some "witch" → p.alive = true →
      witch_info room pid = .ok (impl_wolf_victim room,
        truthy (impl_wolf_victim room) && room.witch_has_heal,
        room.witch_has_poison)) := by
  refine ⟨rfl, ?_⟩
  intro pid p hp hrole halive
  simp only [witch_info, hp, hrole, halive]
  rfl

/-- Room for the C10 witness: a living witch and a night-1 wolf kill on A. -/
def W10 : Room :=
  { code := "r"
    players := [pW, pB, pA]
    phase := "night"
    night_number := 1
    actions := [actWolfKillA] }

/-- Witness for C10 at the concrete room `W10`. -/
theorem claim_C10_witch_info_victim_witness :
    witch_info W10 "w" = Except.ok (some "A", true, true) ∧
    witch_info_victim W10 = impl_wolf_victim W10 :=
  ⟨((claim_C10_witch_info_victim W10).2 "w" pW rfl rfl rfl).trans rfl,
   (claim_C10_witch_info_victim W10).1⟩

/-- C4 (amended): when the heal charge is available and the last heal
decision of the night is witch_heal, the guard-surviving wolf victim (if
any) is saved — the death list contains only the gambler and poison targets —
but the heal charge is spent exactly when such a victim existed; with no
guard-surviving wolf victim the charge stays available, contrary to the
original claim's unconditional spending. -/
theorem claim_C4_witch_heal (room r' : Room) (h1 : room.phase = "night")
    (h2 : room.winner = none) (h3 : room.witch_has_heal = true)
    (h4 : (heal_decision_actions room).getLast?.map Action.action_type =
      some "witch_heal")
    (h : host_resolve_night room = .ok r') :
    r'.deaths_last_night =
      dedupFirst (otl (gambler_target room) ++ otl (poison_target room)) ∧
    r'.witch_has_heal = !(truthy (wolf_victim_after_guard room)) := by
  have huse : use_heal room = true := by
    rw [use_heal, h3]
    cases hgl : (heal_decision_actions room).getLast? with
    | none => rw [hgl] at h4; simp at h4
    | some a =>
      rw [hgl] at h4
      simp only [Option.map_some', Option.some.injEq] at h4
      simp [h4]
  obtain ⟨_, hd, hh, _⟩ := resolve_night_fields room r' h1 h2 h
  have hfin : otl (wolf_victim_final room) = [] := by
    by_cases htr : truthy (wolf_victim_after_guard room) = true
    · simp only [wolf_victim_final, htr, huse, Bool.and_self, if_true]
      rfl
    · have htr' : truthy (wolf_victim_after_guard room) = false := by
        simpa using htr
      simp only [wolf_victim_final, htr', huse, Bool.false_and, if_false]
      exact otl_of_not_truthy _ htr'
  constructor
  · rw [hd, night_deaths, hfin, List.nil_append]
  · rw [hh, witch_has_heal_after, huse]
    by_cases htr : truthy (wolf_victim_after_guard room) = true
    · simp [htr]
    · have htr' : truthy (wolf_victim_after_guard room) = false := by
        simpa using htr
      simp [htr', h3]

/-- A night-1 heal decision by the witch. -/
def actHeal : Action :=
  { player_id := "w"
    action_type := "witch_heal"
    phase := some "night"
    night_number := some 1 }

/-- Room refuting C4 as stated: the witch heals on a night with no wolf-kill
submission at all. -/
def C4room : Room :=
  { code := "r"
    players := [pB, pW, pA, pS]
    phase := "night"
    night_number := 1
    actions := [actHeal] }

/-- C4 counterexample: the heal decision is the last one and the charge is
available, yet after resolution `witch_has_heal` is still true because there
was no wolf victim to save — the claim's unconditional "becomes permanently
false" fails. -/
theorem claim_C4_counterexample :
    C4room.witch_has_heal = true ∧
    (heal_decision_actions C4room).getLast?.map Action.action_type =
      some "witch_heal" ∧
    (host_resolve_night C4room).map Room.witch_has_heal = Except.ok true :=
  ⟨rfl, rfl, rfl⟩

/-- Room for the C4 witness: wolf kill on A plus a witch heal, no guard. -/
def C4wit : Room :=
  { code := "r"
    players := [pB, pW, pA, pS]
    phase := "night"
    night_number := 1
    actions := [actWolfKillA, actHeal] }

/-- Expected resolution of `C4wit`: nobody dies and the heal is spent. -/
def C4witres : Room := { C4wit with witch_has_heal := false }

/-- Witness for the amended C4 at the concrete room `C4wit`. -/
theorem claim_C4_witch_heal_witness :
    C4wit.phase = "night" ∧ C4wit.winner = none ∧ C4wit.witch_has_heal = true ∧
    (C4witres.deaths_last_night =
      dedupFirst (otl (gambler_target C4wit) ++ otl (poison_target C4wit)) ∧
     C4witres.witch_has_heal = !(truthy (wolf_victim_after_guard C4wit))) :=
  ⟨rfl, rfl, rfl, claim_C4_witch_heal C4wit C4witres rfl rfl rfl rfl rfl⟩

/-- C3: in resolve_day the top-voted target is spared (stays alive, with the
prince_revealed flag raised) exactly when it resolves to a living player
whose role is prince and whose prince_revealed flag is false; in every other
case the resolved target ends up dead — in particular a second winning lynch
vote on an already-revealed prince kills them. -/
theorem claim_C3_prince_immunity (room r' : Room) (c : String) (t : Player)
    (h1 : room.phase = "day") (h2 : room.winner = none)
    (h3 : (compute_lynch_votes room).1 = some c)
    (h4 : find_player_by_name room c = some t)
    (h : host_resolve_day room = .ok r') :
    (find_player_by_name r' c).map Player.alive = some (spared_cond t) ∧
    (spared_cond t = true →
      (find_player_by_name r' c).map Player.prince_revealed = some true) := by
  have hcne : c ≠ "" := lynch_candidate_ne_empty room c h3
  have hce : (c == "") = false := by simpa using hcne
  rw [find_player_by_name] at h4
  simp only [host_resolve_day] at h
  rw [if_neg (by simp [h1]), if_neg (by simp [h2])] at h
  rw [h3] at h
  simp only [hce, Bool.false_eq_true, if_false, find_player_by_name, h4] at h
  by_cases hbr : (t.role == some "prince" && !t.prince_revealed) = true
  · rw [if_pos hbr] at h
    have hsp : spared_cond t = t.alive := by
      rw [spared_cond, Bool.and_assoc, hbr, Bool.and_true]
    have hfind : ∀ s : Room,
        s.players = update_first_by_name room.players c reveal_update →
        (find_player_by_name s c).map Player.alive = some (spared_cond t) ∧
        (spared_cond t = true →
          (find_player_by_name s c).map Player.prince_revealed = some true) := by
      intro s hs
      rw [find_player_by_name, hs,
        find_update_first room.players c reveal_update (fun p => rfl), h4]
      exact ⟨by rw [hsp]; rfl, fun _ => rfl⟩
    split at h
    · injection h with h
      exact hfind r' (by rw [← h])
    · injection h with h
      exact hfind r' (by rw [← h])
  · rw [if_neg hbr] at h
    have hbr' : (t.role == some "prince" && !t.prince_revealed) = false := by
      simpa using hbr
    have hsp : spared_cond t = false := by
      rw [spared_cond, Bool.and_assoc, hbr', Bool.and_false]
    have hname : ∀ p : Player, (kill_update p).name = p.name := by
      intro p
      rw [kill_update]
      by_cases hpa : p.alive = true
      · rw [if_pos hpa]
      · rw [if_neg hpa]
    have halive : ∀ p : Player, (kill_update p).alive = false := by
      intro p
      rw [kill_update]
      by_cases hpa : p.alive = true
      · rw [if_pos hpa]
      · rw [if_neg hpa]
        simpa using hpa
    have hfind : ∀ s : Room,
        s.players = update_first_by_name room.players c kill_update →
        (find_player_by_name s c).map Player.alive = some (spared_cond t) ∧
        (spared_cond t = true →
          (find_player_by_name s c).map Player.prince_revealed = some true) := by
      intro s hs
      rw [find_player_by_name, hs,
        find_update_first room.players c kill_update hname, h4]
      constructor
      · rw [hsp]
        simp only [Option.map_some']
        rw [halive t]
      · intro hx
        rw [hsp] at hx
        simp at hx
    split at h
    · injection h with h
      exact hfind r' (by rw [← h])
    · injection h with h
      exact hfind r' (by rw [← h])

/-- A living, unrevealed prince. -/
def pP : Player := { id := "p", name := "P", role := some "prince" }

/-- The same prince after his immunity has been used. -/
def pPr : Player := { pP with prince_revealed := true }

/-- A day-1 lynch vote against P. -/
def actVoteP : Action :=
  { player_id := "a"
    action_type := "vote_lynch"
    target_name := some "P"
    phase := some "day"
    day_number := some 1 }

/-- Room where the unrevealed prince P wins the lynch vote. -/
def C3a : Room :=
  { code := "r"
    players := [pP, pB, pA]
    phase := "day"
    day_number := 1
    actions := [actVoteP] }

/-- Resolving `C3a`: the prince is revealed and survives. -/
def C3ares : Room := { C3a with players := [pPr, pB, pA] }

/-- Room where the already-revealed prince P wins the lynch vote again. -/
def C3b : Room := { C3a with players := [pPr, pB, pA] }

/-- Resolving `C3b`: the prince dies, leaving wolf parity and a wolf win. -/
def C3bres : Room :=
  { C3b with
    players := [{ pPr with alive := false }, pB, pA]
    winner := some "werewolves"
    phase := "ended" }

/-- Witness for C3: the first winning vote spares the prince and reveals the
role; a second winning vote on the revealed prince kills him. -/
theorem claim_C3_prince_immunity_witness :
    ((find_player_by_name C3ares "P").map Player.alive = some (spared_cond pP) ∧
     (spared_cond pP = true →
       (find_player_by_name C3ares "P").map Player.prince_revealed = some true)) ∧
    ((find_player_by_name C3bres "P").map Player.alive = some (spared_cond pPr) ∧
     (spared_cond pPr = true →
       (find_player_by_name C3bres "P").map Player.prince_revealed = some true)) :=
  ⟨claim_C3_prince_immunity C3a C3ares "P" pP rfl rfl rfl rfl rfl,
   claim_C3_prince_immunity C3b C3bres "P" pPr rfl rfl rfl rfl rfl⟩

/-- C6: the witch progress query lists a living witch as pending exactly
until she has submitted both a heal decision and a poison decision in the
current night; a queried role with zero living holders reports an empty
pending list and done; and the query never mutates the room. -/
theorem claim_C6_role_progress (room : Room) :
    (∀ role, (["mage", "guard", "werewolf", "seer", "witch",
        "gambler"].contains role) = true →
      room.players.filter (fun p => p.alive && p.role == some role) = [] →
      role_progress room role = .ok (([], true), room)) ∧
    (room.players.filter (fun p => p.alive && p.role == some "witch") ≠ [] →
      role_progress room "witch" =
        .ok ((claim_witch_pending room, (claim_witch_pending room).isEmpty), room)) ∧
    (∀ role out, role_progress room role = .ok out → out.2 = room) := by
  refine ⟨?_, ?_, ?_⟩
  · intro role hrole hempty
    simp only [role_progress]
    rw [if_neg (by rw [hrole]; simp), hempty]
    rw [if_pos (show ([] : List Player).isEmpty = true from rfl)]
  · intro hne
    simp only [role_progress]
    rw [if_neg (by simp)]
    have hie : (room.players.filter
        (fun p => p.alive && p.role == some "witch")).isEmpty = false := by
      cases hfil : room.players.filter (fun p => p.alive && p.role == some "witch") with
      | nil => exact absurd hfil hne
      | cons x t => rfl
    rw [hie]
    rw [if_neg (by simp), if_pos (show (("witch" : String) == "witch") = true from rfl)]
    have hpend : (room.players.filter
        (fun p => p.alive && p.role == some "witch")).filterMap (fun p =>
          if ((player_night_actions room p.id).any (fun a =>
                a.action_type == "witch_heal" || a.action_type == "witch_no_heal") &&
              (player_night_actions room p.id).any (fun a =>
                a.action_type == "witch_poison" || a.action_type == "witch_no_poison"))
          then none else some p.name) = claim_witch_pending room := by
      rw [filterMap_if_name, claim_witch_pending]
      congr 1
      apply filter_congr_local
      intro p _
      simp only [player_night_actions, any_filter_local]
    rw [← hpend]
  · intro role out hq
    simp only [role_progress] at hq
    split at hq
    · simp at hq
    · split at hq
      · injection hq with hq
        rw [← hq]
      · split at hq
        · injection hq with hq
          rw [← hq]
        · injection hq with hq
          rw [← hq]

/-- C7: submit_action fails when the submitting player is dead or the room
already has a winner (the room is untouched — the model returns no room on
error), and otherwise appends exactly one action stamped with the current
phase and the matching cycle counter: the night number in phase night, the
day number in phase day, both null otherwise; the action kind `k` is
arbitrary — no role check is performed. -/
theorem claim_C7_submit_action (room : Room) (pid k : String) (tn : Option String)
    (p : Player) (hp : room.players.find? (fun q => q.id == pid) = some p) :
    ((p.alive = false ∨ room.winner ≠ none) →
      ∃ e, post_action room pid k tn = .error e) ∧
    (p.alive = true → room.winner = none →
      post_action room pid k tn = .ok { room with actions := room.actions ++
        [{ player_id := pid
           action_type := k
           target_name := tn
           phase := some room.phase
           night_number := if room.phase == "night" then some room.night_number else none
           day_number := if room.phase == "day" then some room.day_number else none }] }) := by
  constructor
  · rintro (ha | hw)
    · refine ⟨"DeadPlayer", ?_⟩
      simp only [post_action, hp]
      rw [if_pos (by rw [ha]; rfl)]
    · by_cases ha : p.alive = true
      · refine ⟨"GameEnded", ?_⟩
        simp only [post_action, hp]
        rw [if_neg (by rw [ha]; simp), if_pos hw]
      · refine ⟨"DeadPlayer", ?_⟩
        have ha' : p.alive = false := by simpa using ha
        simp only [post_action, hp]
        rw [if_pos (by rw [ha']; rfl)]
  · intro ha hw
    simp only [post_action, hp]
    rw [if_neg (by rw [ha]; simp), if_neg (by simp [hw])]

/-- A dead player used by the C7 witness. -/
def pDead : Player :=
  { id := "d", name := "D", role := some "villager", alive := false }

/-- Room for the C7 witness: one living and one dead player in the lobby. -/
def C7room : Room := { code := "r", players := [pA, pDead] }

/-- Witness for C7: the living player's submission is appended with a lobby
stamp (both cycle counters null); the dead player's submission errors. -/
theorem claim_C7_submit_action_witness :
    (post_action C7room "a" "vote_lynch" (some "D") =
      .ok { C7room with actions := C7room.actions ++
        [{ player_id := "a"
           action_type := "vote_lynch"
           target_name := some "D"
           phase := some C7room.phase
           night_number := if C7room.phase == "night" then some C7room.night_number else none
           day_number := if C7room.phase == "day" then some C7room.day_number else none }] }) ∧
    (∃ e, post_action C7room "d" "wolf_kill" none = .error e) :=
  ⟨(claim_C7_submit_action C7room "a" "vote_lynch" (some "D") pA rfl).2 rfl rfl,
   (claim_C7_submit_action C7room "d" "wolf_kill" none pDead rfl).1 (Or.inl rfl)⟩

/-- C8 (amended): after resolve_day the voting state always resets; when the
tally yields a candidate that resolves to a player, active_call clears and
the win evaluator's verdict is persisted (winner set, phase → ended on a
win, phase stays day otherwise); when there is no candidate, or the
candidate's name resolves to nobody, active_call, winner, phase and the
roster are left unchanged and the evaluator's verdict is only reported, not
persisted — the original claim's unconditional active_call clearing and
winner persistence fail on that path. -/
theorem claim_C8_day_outcome (room r' : Room) (h1 : room.phase = "day")
    (h2 : room.winner = none) (h : host_resolve_day room = .ok r') :
    r'.voting_status = "idle" ∧ r'.vote_duration_sec = none ∧
    ((compute_lynch_votes room).1 = none →
      r'.active_call = room.active_call ∧ r'.winner = none ∧
      r'.phase = "day" ∧ r'.players = room.players) ∧
    (∀ c, (compute_lynch_votes room).1 = some c → find_player_by_name room c = none →
      r'.active_call = room.active_call ∧ r'.winner = none ∧
      r'.phase = "day" ∧ r'.players = room.players) ∧
    (∀ c t, (compute_lynch_votes room).1 = some c →
      find_player_by_name room c = some t →
      r'.active_call = none ∧ r'.winner = compute_winner r' ∧
      (r'.winner = none → r'.phase = "day") ∧
      (r'.winner ≠ none → r'.phase = "ended")) := by
  simp only [host_resolve_day] at h
  rw [if_neg (by simp [h1]), if_neg (by simp [h2])] at h
  cases hclv : (compute_lynch_votes room).1 with
  | none =>
    simp only [hclv] at h
    injection h with h
    subst h
    refine ⟨rfl, rfl, fun _ => ⟨rfl, h2, h1, rfl⟩, ?_, ?_⟩
    · intro c hc _
      exact absurd hc (by simp)
    · intro c t hc _
      exact absurd hc (by simp)
  | some c =>
    have hce : (c == "") = false := by
      simpa using lynch_candidate_ne_empty room c hclv
    simp only [hclv, hce, Bool.false_eq_true, if_false] at h
    cases hfp : find_player_by_name room c with
    | none =>
      simp only [hfp] at h
      injection h with h
      subst h
      refine ⟨rfl, rfl, ?_, fun _ _ _ => ⟨rfl, h2, h1, rfl⟩, ?_⟩
      · intro hn
        exact absurd hn (by simp)
      · intro c' t hc' hf'
        injection hc' with hc'
        subst hc'
        rw [hfp] at hf'
        exact absurd hf' (by simp)
    | some t =>
      simp only [hfp] at h
      have hfin : ∀ s : Room,
          ((match compute_winner s with
            | some w => Except.ok { s with winner := some w, phase := "ended" }
            | none => Except.ok s) : Except String Room) = .ok r' →
          s.winner = none → s.phase = "day" → s.active_call = none →
          r'.voting_status = s.voting_status ∧
          r'.vote_duration_sec = s.vote_duration_sec ∧
          (r'.active_call = none ∧ r'.winner = compute_winner r' ∧
            (r'.winner = none → r'.phase = "day") ∧
            (r'.winner ≠ none → r'.phase = "ended")) := by
        intro s hmatch hsw hsp hsa
        cases hcw : compute_winner s with
        | none =>
          simp only [hcw] at hmatch
          injection hmatch with hmatch
          subst hmatch
          exact ⟨rfl, rfl, hsa, hsw.trans hcw.symm, fun _ => hsp,
            fun hx => absurd hsw hx⟩
        | some w =>
          simp only [hcw] at hmatch
          injection hmatch with hmatch
          subst hmatch
          refine ⟨rfl, rfl, hsa, ?_, ?_, fun _ => rfl⟩
          · exact hcw.symm
          · intro hx
            exact absurd hx (by simp)
      by_cases hbr : (t.role == some "prince" && !t.prince_revealed) = true
      · rw [if_pos hbr] at h
        obtain ⟨hvs, hvd, hres⟩ := hfin _ h h2 h1 rfl
        refine ⟨hvs, hvd, ?_, ?_, fun _ _ _ _ => hres⟩
        · intro hn
          exact absurd hn (by simp)
        · intro c' hc' hf'
          injection hc' with hc'
          subst hc'
          rw [hfp] at hf'
          exact absurd hf' (by simp)
      · rw [if_neg hbr] at h
        obtain ⟨hvs, hvd, hres⟩ := hfin _ h h2 h1 rfl
        refine ⟨hvs, hvd, ?_, ?_, fun _ _ _ _ => hres⟩
        · intro hn
          exact absurd hn (by simp)
        · intro c' hc' hf'
          injection hc' with hc'
          subst hc'
          rw [hfp] at hf'
          exact absurd hf' (by simp)

/-- Room refuting C8 as stated: day phase, a pending active_call, and no
votes at all.  The roster even satisfies the village win condition. -/
def C8room : Room :=
  { code := "r"
    players := [pA]
    phase := "day"
    day_number := 1
    active_call := some "seer" }

/-- C8 counterexample: resolve_day on `C8room` completes with "nobody
lynched" but leaves active_call set and, although the win evaluator reports
a village win, neither stores the winner nor ends the game. -/
theorem claim_C8_counterexample :
    compute_winner C8room = some "village" ∧
    (host_resolve_day C8room).map (fun r => (r.active_call, r.winner, r.phase)) =
      Except.ok (some "seer", none, "day") :=
  ⟨rfl, rfl⟩

/-- A day-1 lynch vote against B. -/
def actVoteB : Action :=
  { player_id := "a"
    action_type := "vote_lynch"
    target_name := some "B"
    phase := some "day"
    day_number := some 1 }

/-- Room for the C8 witness: the villagers out-vote the werewolf. -/
def C8wit : Room :=
  { code := "r"
    players := [pB, pA, pS]
    phase := "day"
    day_number := 1
    actions := [actVoteB] }

/-- Resolving `C8wit`: B is lynched and the village wins. -/
def C8witres : Room :=
  { C8wit with
    players := [{ pB with alive := false }, pA, pS]
    winner := some "village"
    phase := "ended" }

/-- Witness for the amended C8 at the concrete room `C8wit`: the lynch of B
resets voting, clears active_call, persists the village win and ends the
game. -/
theorem claim_C8_day_outcome_witness :
    C8witres.voting_status = "idle" ∧ C8witres.vote_duration_sec = none ∧
    (C8witres.active_call = none ∧ C8witres.winner = compute_winner C8witres ∧
      (C8witres.winner = none → C8witres.phase = "day") ∧
      (C8witres.winner ≠ none → C8witres.phase = "ended")) ∧
    C8witres.phase = "ended" :=
  ⟨(claim_C8_day_outcome C8wit C8witres rfl rfl rfl).1,
   (claim_C8_day_outcome C8wit C8witres rfl rfl rfl).2.1,
   (claim_C8_day_outcome C8wit C8witres rfl rfl rfl).2.2.2.2 "B" pB rfl rfl,
   ((claim_C8_day_outcome C8wit C8witres rfl rfl rfl).2.2.2.2 "B" pB rfl rfl).2.2.2
     (by decide)⟩

/-- C9 (amended): none of resolve_night, resolve_day, submit_action, or
set_phase ever turns a dead player's alive flag back to true — the roster
only loses liveness under those operations.  The original claim's extension
to game start fails: start_game resets every role-assigned player to alive
as part of new-game setup. -/
theorem claim_C9_no_revival (room : Room) :
    (∀ r', host_resolve_night room = .ok r' → alive_mono room.players r'.players) ∧
    (∀ r', host_resolve_day room = .ok r' → alive_mono room.players r'.players) ∧
    (∀ pid k tn r', post_action room pid k tn = .ok r' →
      alive_mono room.players r'.players) ∧
    (∀ ph r', host_set_phase room ph = .ok r' → alive_mono room.players r'.players) := by
  refine ⟨?_, ?_, ?_, ?_⟩
  · intro r' h
    by_cases hph : room.phase = "night"
    · by_cases hw : room.winner = none
      · obtain ⟨hp, _, _, _⟩ := resolve_night_fields room r' hph hw h
        rw [hp]
        exact alive_mono_trans _ _ _
          (alive_mono_trans _ _ _ (alive_mono_clear_mutes _) (alive_mono_apply_mute _ _))
          (alive_mono_kill_players _ _)
      · simp only [host_resolve_night] at h
        rw [if_neg (by simp [hph]), if_pos hw] at h
        simp at h
    · simp only [host_resolve_night] at h
      rw [if_pos hph] at h
      simp at h
  · intro r' h
    by_cases hph : room.phase = "day"
    · by_cases hw : room.winner = none
      · simp only [host_resolve_day] at h
        rw [if_neg (by simp [hph]), if_neg (by simp [hw])] at h
        cases hclv : (compute_lynch_votes room).1 with
        | none =>
          simp only [hclv] at h
          injection h with h
          subst h
          exact alive_mono_refl _
        | some c =>
          have hce : (c == "") = false := by
            simpa using lynch_candidate_ne_empty room c hclv
          simp only [hclv, hce, Bool.false_eq_true, if_false] at h
          cases hfp : find_player_by_name room c with
          | none =>
            simp only [hfp] at h
            injection h with h
            subst h
            exact alive_mono_refl _
          | some t =>
            simp only [hfp] at h
            by_cases hbr : (t.role == some "prince" && !t.prince_revealed) = true
            · rw [if_pos hbr] at h
              split at h
              · injection h with h
                subst h
                exact alive_mono_update _ _ _ (fun p hp => hp)
              · injection h with h
                subst h
                exact alive_mono_update _ _ _ (fun p hp => hp)
            · rw [if_neg hbr] at h
              split at h
              · injection h with h
                subst h
                exact alive_mono_update _ _ _ kill_fn_mono
              · injection h with h
                subst h
                exact alive_mono_update _ _ _ kill_fn_mono
      · simp only [host_resolve_day] at h
        rw [if_neg (by simp [hph]), if_pos hw] at h
        simp at h
    · simp only [host_resolve_day] at h
      rw [if_pos hph] at h
      simp at h
  · intro pid k tn r' h
    simp only [post_action] at h
    cases hf : room.players.find? (fun q => q.id == pid) with
    | none =>
      rw [hf] at h
      simp at h
    | some p =>
      simp only [hf] at h
      split at h
      · simp at h
      · split at h
        · simp at h
        · injection h with h
          subst h
          exact alive_mono_refl _
  · intro ph r' h
    simp only [host_set_phase] at h
    split at h
    · simp at h
    · split at h
      · simp at h
      · split at h
        · injection h with h
          subst h
          exact alive_mono_map _ _ (fun p hp => hp)
        · split at h
          · injection h with h
            subst h
            exact alive_mono_refl _
          · injection h with h
            subst h
            exact alive_mono_refl _

/-- A second spare villager. -/
def pX : Player := { id := "x", name := "X", role := some "villager" }

/-- A third spare villager. -/
def pY : Player := { id := "y", name := "Y", role := some "villager" }

/-- Room for the C9 witness: one dead and one living player at night. -/
def W9 : Room :=
  { code := "r"
    players := [pDead, pA]
    phase := "night"
    night_number := 1 }

/-- Result of switching `W9` to day. -/
def W9day : Room := { W9 with phase := "day", day_number := 1 }

/-- Witness for the amended C9: switching phases keeps the dead player dead. -/
theorem claim_C9_no_revival_witness :
    alive_mono W9.players W9day.players ∧
    W9.players.map (fun p => p.alive) = [false, true] :=
  ⟨(claim_C9_no_revival W9).2.2.2 "day" W9day rfl, rfl⟩

/-- Room refuting C9 as stated: four lobby players, one of them dead. -/
def C9room : Room := { code := "r", players := [pDead, pA, pX, pY] }

/-- C9 counterexample: start_game assigns roles down the given shuffle order
and sets every assigned player alive — the dead player D comes back to
life, contradicting the claim's "including game start". -/
theorem claim_C9_counterexample :
    C9room.players.map (fun p => p.alive) = [false, true, true, true] ∧
    (start_game C9room ["d", "a", "x", "y"]).map
      (fun r => r.players.map (fun p => p.alive)) =
      Except.ok [true, true, true, true] :=
  ⟨rfl, rfl⟩

/-- Room for the C6 witness: a living witch who has submitted only her heal
decision for the current night, and no mage at all. -/
def C6wit : Room :=
  { code := "r"
    players := [pW, pB, pA]
    phase := "night"
    night_number := 1
    actions := [actHeal] }

/-- Witness for C6: with no living mage the query reports done; the witch is
still pending because her poison decision is missing; the room comes back
unchanged. -/
theorem claim_C6_role_progress_witness :
    role_progress C6wit "mage" = .ok (([], true), C6wit) ∧
    role_progress C6wit "witch" =
      .ok ((claim_witch_pending C6wit, (claim_witch_pending C6wit).isEmpty), C6wit) ∧
    claim_witch_pending C6wit = ["W"] :=
  ⟨(claim_C6_role_progress C6wit).1 "mage" rfl rfl,
   (claim_C6_role_progress C6wit).2.1 (by decide),
   rfl⟩

example : truthy (some "") = false := by decide

example : compute_lynch_votes { actions := [
    { player_id := "p1", action_type := "vote_lynch", target_name := some "A" },
    { player_id := "p1", action_type := "vote_lynch", target_name := some "B" },
    { player_id := "p2", action_type := "vote_lynch", target_name := some "A" }] } =
    (some "B", [("B", 1), ("A", 1)]) := by decide

end Werewolf
